import Mathlib

/-!
Verification of the crawl-and-transcode pipeline of `ghost_static_generator.py`.

The Python program is shallowly embedded below:
* `urlparse` models Python's `urllib.parse.urlparse` (scheme / netloc / path /
  query / fragment splitting) for the URL shapes the generator handles.
* `save_file_relpath` / `save_file_path` / `save_file` model `save_file`
  (lines 162-178): the URL path is stripped of leading slashes, empty or
  trailing-slash paths get `index.html` appended, and the content is written
  under the public directory (the `extension` parameter of the Python function
  is ignored by its body, so it is not modeled).
* `is_same_domain` models `is_same_domain` (lines 159-160).
* `scrape_url` / `scrape_list` model the crawler (`scrape_url`, lines 103-127,
  and the link loop of `process_html`, lines 129-157).  The network and the
  HTML/CSS link extraction are abstracted into a `FetchOutcome`-valued oracle;
  the `try`/`except` blocks of `scrape_url` are reflected by the `fetchError`
  outcome, which performs no write and raises nothing.
* `convert_images_plan` / `convert_images` model the image-selection walk and
  conversion loop of `convert_images` (lines 180-240); the external
  `cwebp`/`avifenc`/`cjxl` calls are modeled as successful writes of an opaque
  output value.
* `Node`, `processImg`, `rewriteNode`, `parseHtml`, `serializeForest` model
  `update_html_for_image_formats` (lines 242-322) together with the
  BeautifulSoup (`html.parser`) document tree, its `str(soup)` serialization
  conventions, and `url_to_local_path` (lines 324-331).
-/

/-! ## basic character and string helpers -/

/-- Split a character list at the first occurrence of `sep`: returns the part
before it and, when `sep` occurs, the part after it. -/
def splitFirstCore (sep : Char) : List Char → List Char × Option (List Char)
  | [] => ([], none)
  | c :: cs =>
    if c = sep then ([], some cs)
    else
      let r := splitFirstCore sep cs
      (c :: r.1, r.2)

/-- Characters allowed in a URL scheme (Python's `scheme_chars`). -/
def isSchemeChar (c : Char) : Bool :=
  c.isAlphanum || c = '+' || c = '-' || c = '.'

/-- `str.lstrip('/')`: drop every leading `/`. -/
def lstripSlashes (s : String) : String :=
  String.mk (s.toList.dropWhile (fun c => c = '/'))

/-- Does `s` start with `pre`?  (`str.startswith`.) -/
def strStartsWith (s pre : String) : Bool :=
  List.isPrefixOf pre.toList s.toList

/-- Does `s` end with `suffix`?  (`str.endswith`.) -/
def strEndsWith (s suffix : String) : Bool :=
  List.isPrefixOf suffix.toList.reverse s.toList.reverse

/-- `str.lower()`. -/
def strToLower (s : String) : String :=
  String.mk (s.toList.map Char.toLower)

/-- `str.strip()`: drop leading and trailing whitespace. -/
def strTrim (s : String) : String :=
  String.mk (((s.toList.dropWhile (fun c => c.isWhitespace)).reverse.dropWhile
    (fun c => c.isWhitespace)).reverse)

/-- Split a character list at every character satisfying `p`, keeping empty
pieces (the shape of `str.split(sep)` for a one-character separator). -/
def splitWhenCore (p : Char → Bool) : List Char → List (List Char)
  | [] => [[]]
  | c :: cs =>
      let r := splitWhenCore p cs
      if p c then [] :: r
      else (c :: r.headD []) :: r.tail

/-- `s.split(sep)` for a one-character separator. -/
def splitOnChar (s : String) (sep : Char) : List String :=
  (splitWhenCore (fun c => c = sep) s.toList).map String.mk

/-- `sep.join(parts)`. -/
def joinSep (sep : String) : List String → String
  | [] => ""
  | [x] => x
  | x :: xs => x ++ sep ++ joinSep sep xs

/-- `str.split()` with no argument: split on whitespace runs, dropping empties. -/
def pySplitWs (s : String) : List String :=
  ((splitWhenCore (fun c => c.isWhitespace) s.toList).map String.mk).filter
    (fun t => t ≠ "")

/-! ## urlparse -/

/-- Result of `urllib.parse.urlparse`. -/
structure UrlParts where
  scheme : String
  netloc : String
  path : String
  query : String
  fragment : String
deriving DecidableEq

/-- Is a candidate scheme prefix valid: nonempty, starting with a letter, all
characters in `scheme_chars`? -/
def isValidSchemeChars : List Char → Bool
  | [] => false
  | c0 :: rest => c0.isAlpha && (c0 :: rest).all isSchemeChar

/-- Scheme extraction of `urlsplit`: the text before the first `:` is a scheme
when it is a valid scheme prefix; the scheme is lowercased.  Returns
`(scheme, rest)`. -/
def schemeSplitCore (cs : List Char) : List Char × List Char :=
  match splitFirstCore ':' cs with
  | (pre, some rest) =>
      if isValidSchemeChars pre then (pre.map Char.toLower, rest) else ([], cs)
  | (_, none) => ([], cs)

/-- A character ending the netloc component. -/
def isNetlocEnd (c : Char) : Bool :=
  c = '/' || c = '?' || c = '#'

/-- Netloc extraction of `urlsplit`: after a leading `//`, the netloc runs up
to the next `/`, `?` or `#`.  Returns `(netloc, rest)`. -/
def netlocSplitCore (cs : List Char) : List Char × List Char :=
  match cs with
  | c1 :: c2 :: rest =>
      if c1 = '/' ∧ c2 = '/' then
        (rest.takeWhile (fun c => !isNetlocEnd c), rest.dropWhile (fun c => !isNetlocEnd c))
      else ([], cs)
  | _ => ([], cs)

/-- `urllib.parse.urlparse`: scheme, then netloc, then the fragment is split at
the first `#` and the query at the first `?`; what is left is the path. -/
def urlparse (u : String) : UrlParts :=
  let p1 := schemeSplitCore u.toList
  let p2 := netlocSplitCore p1.2
  let p3 := splitFirstCore '#' p2.2
  let frag := p3.2.getD []
  let p4 := splitFirstCore '?' p3.1
  let query := p4.2.getD []
  ⟨String.mk p1.1, String.mk p2.1, String.mk p4.1, String.mk query, String.mk frag⟩

/-! ## PathMapper / Mirror (save_file, lines 162-178) -/

/-- `os.path.join` for the two-argument uses in the program. -/
def osPathJoin (a b : String) : String :=
  if strStartsWith b "/" then b
  else if strEndsWith a "/" = true ∨ a = "" then a ++ b
  else a ++ "/" ++ b

/-- Lines 163-168 of `save_file`: the mirror-relative path of a URL. -/
def save_file_relpath (url : String) : String :=
  let rel := lstripSlashes (urlparse url).path
  if rel = "" then "index.html"
  else if strEndsWith rel "/" then rel ++ "index.html"
  else rel

/-- Line 170 of `save_file`: the full mirror path of a URL. -/
def save_file_path (publicDir url : String) : String :=
  osPathJoin publicDir (save_file_relpath url)

/-- The mirror filesystem: an association of paths to file contents. -/
abbrev Store := List (String × String)

/-- Write a file, truncating any previous content at the same path
(`open(file_path, mode)` with mode `w`/`wb`). -/
def writeStore : Store → String → String → Store
  | [], p, c => [(p, c)]
  | (q, d) :: t, p, c => if q = p then (p, c) :: t else (q, d) :: writeStore t p c

/-- Read a file back from the mirror. -/
def readStore : Store → String → Option String
  | [], _ => none
  | (q, d) :: t, p => if q = p then some d else readStore t p

/-- `save_file` (lines 162-178): write `content` at the path derived from
`url` under `publicDir`. -/
def save_file (publicDir : String) (st : Store) (url content : String) : Store :=
  writeStore st (save_file_path publicDir url) content

/-- `is_same_domain` (lines 159-160): compare netlocs of the URL and the
source URL. -/
def is_same_domain (sourceUrl url : String) : Bool :=
  (urlparse url).netloc == (urlparse sourceUrl).netloc

/-! ## CrawlFrontier (scrape_url, lines 103-127; process_html, lines 129-157)

The network and the link extraction performed by BeautifulSoup are abstracted
into an oracle `web : String → FetchOutcome`.  For an HTML page the oracle
yields the page text together with the absolute URLs produced by `urljoin` for
every `href`/`src`/`data-src` attribute and every inline-CSS `url(...)`
reference of the page; the crawler then keeps only the same-domain ones
(lines 137, 147, 156).  A request failure or non-2xx status raises
`requests.exceptions.RequestException`, which `scrape_url` catches and logs;
this caught path is the `fetchError` outcome: nothing is saved and the
exception never propagates. -/

inductive FetchOutcome where
  | fetchError : FetchOutcome
  | htmlPage : String → List String → FetchOutcome
  | filePayload : String → FetchOutcome

/-- The crawler state: the `visited_urls` set (line 60), the log of URLs on
which `requests.get` was performed (line 109), and the mirror contents. -/
structure CrawlState where
  visited : List String
  fetches : List String
  saved : Store

mutual

/-- `scrape_url` (lines 103-127): skip if already visited, otherwise mark
visited, fetch, save, and recurse into the same-domain links of an HTML page.
`fuel` bounds the recursion depth; with enough fuel the recursion terminates
exactly as the Python recursion does, because the visited set grows at every
fetch. -/
def scrape_url (web : String → FetchOutcome) (sourceUrl publicDir : String) :
    Nat → String → CrawlState → CrawlState
  | 0, _, s => s
  | fuel + 1, url, s =>
    if url ∈ s.visited then s
    else
      let s1 : CrawlState :=
        ⟨url :: s.visited, s.fetches ++ [url], s.saved⟩
      match web url with
      | .fetchError => s1
      | .htmlPage content links =>
          let s2 : CrawlState :=
            ⟨s1.visited, s1.fetches, save_file publicDir s1.saved url content⟩
          scrape_list web sourceUrl publicDir fuel
            (links.filter (fun u => is_same_domain sourceUrl u)) s2
      | .filePayload content =>
          ⟨s1.visited, s1.fetches, save_file publicDir s1.saved url content⟩

/-- The loop of `process_html` over extracted links: each one is scraped in
turn, threading the crawler state. -/
def scrape_list (web : String → FetchOutcome) (sourceUrl publicDir : String) :
    Nat → List String → CrawlState → CrawlState
  | 0, _, s => s
  | _ + 1, [], s => s
  | fuel + 1, u :: us, s =>
      scrape_list web sourceUrl publicDir fuel us
        (scrape_url web sourceUrl publicDir fuel u s)

end

/-! ## TranscodeEngine (convert_images, lines 180-240) -/

/-- Line 234: does the (lowercased) file name end in a raster-image extension? -/
def hasImageExt (p : String) : Bool :=
  let l := strToLower p
  strEndsWith l ".jpg" || strEndsWith l ".jpeg" || strEndsWith l ".png" || strEndsWith l ".gif"

/-- The last index at which `c` occurs in `cs`, if any. -/
def lastIdxOf (cs : List Char) (c : Char) : Option Nat :=
  ((cs.enum.filter (fun p => p.2 = c)).getLast?).map (fun p => p.1)

/-- `os.path.splitext(p)[0]`: drop the extension, which starts at the last `.`
of the final path component unless every preceding character of that component
is also a `.`. -/
def splitextBase (p : String) : String :=
  let cs := p.toList
  let sep := ((lastIdxOf cs '/').map (fun i => i + 1)).getD 0
  match lastIdxOf cs '.' with
  | none => p
  | some d =>
      if sep ≤ d ∧ ((cs.drop sep).take (d - sep)).any (fun c => c ≠ '.') then
        String.mk (cs.take d)
      else p

/-- The derived outputs expected beside an image (line 234). -/
def expected_outputs (p : String) : List String :=
  ["webp", "avif", "jxl"].map (fun e => splitextBase p ++ "." ++ e)

/-- Lines 230-235: the planned images are the files whose lowercased name ends
in `.jpg`/`.jpeg`/`.png`/`.gif` and, unless `force` is set, whose expected
outputs are not all present. -/
def convert_images_plan (files : List String) (ex : String → Bool) (force : Bool) :
    List String :=
  files.filter (fun p => hasImageExt p && (force || !((expected_outputs p).all ex)))

/-- The target formats, in the order `process_image` runs them (lines 224-228). -/
def transcode_formats : List String := ["webp", "avif", "jxl"]

/-- Stand-in for the bytes produced by the external converter for `imgPath`. -/
def convOutput (imgPath fmt : String) : String :=
  "converted-" ++ fmt ++ "-from-" ++ imgPath

/-- `convert_to_webp`/`convert_to_avif`/`convert_to_jxl` (lines 181-222): if
the output exists and `force` is off, skip; otherwise run the converter
(modeled as succeeding) and record the conversion in a log. -/
def convert_one (force : Bool) (st : Store × List (String × String))
    (imgPath fmt : String) : Store × List (String × String) :=
  let outPath := splitextBase imgPath ++ "." ++ fmt
  if (readStore st.1 outPath).isSome && !force then st
  else (writeStore st.1 outPath (convOutput imgPath fmt), st.2 ++ [(imgPath, fmt)])

/-- `process_image` (lines 224-228): all three formats for one asset. -/
def process_image (force : Bool) (st : Store × List (String × String))
    (imgPath : String) : Store × List (String × String) :=
  transcode_formats.foldl (fun acc f => convert_one force acc imgPath f) st

/-- `convert_images` (lines 180-240): enumerate the plan against the current
mirror, then convert every planned image.  The thread pool writes distinct
output paths per asset; its effect is modeled by the sequential fold.  Returns
the final mirror and the log of conversions actually performed. -/
def convert_images (st : Store) (force : Bool) : Store × List (String × String) :=
  let plan := convert_images_plan (st.map Prod.fst)
    (fun p => (readStore st p).isSome) force
  plan.foldl (fun acc imgPath => process_image force acc imgPath) (st, [])

/-- A mirror file together with what a content sniff (`imghdr`-style, as the
specification describes) would report for it.  The Python code imports
`imghdr` but never calls it; the flag lets the extension-based selection be
compared with the sniff-based one. -/
structure MirrorEntry where
  path : String
  isRasterImage : Bool
deriving DecidableEq

/-- The code's selection applied to sniff-annotated entries: only the file
name is consulted (line 234). -/
def convert_images_select (files : List MirrorEntry) (ex : String → Bool)
    (force : Bool) : List String :=
  convert_images_plan (files.map (fun e => e.path)) ex force

/-- Modelled from the spec: `planWork` selects every file whose content sniff
(not file extension) identifies it as a raster image and whose expected
derived outputs are incomplete unless `forceReconvert` is set ("lazily
enumerates every file under the mirror whose content sniff (not file
extension) identifies it as a raster image, and whose set of expected derived
outputs is incomplete, unless forceReconvert is set"). -/
def plan_work_spec (files : List MirrorEntry) (ex : String → Bool)
    (force : Bool) : List String :=
  ((files.filter (fun e => e.isRasterImage)).map (fun e => e.path)).filter
    (fun p => force || !((expected_outputs p).all ex))

/-! ## HtmlRewriter (update_html_for_image_formats, lines 242-322)

The BeautifulSoup document is a tree of text and element nodes.  Attribute
access `tag.get(k)` returns the value when present; Python's `or` chains fall
through on `None` and on the empty string, which `pyOrStr`/`pyTruthy` model. -/

/-- A BeautifulSoup node: text, or an element with an ordered attribute list
and children. -/
inductive Node where
  | text : String → Node
  | elem : String → List (String × String) → List Node → Node

/-- Ordered attribute list of an element. -/
abbrev Attrs := List (String × String)

/-- `tag.get(k)`: the first binding of `k`, if any. -/
def pyGet (a : Attrs) (k : String) : Option String :=
  ((a.find? (fun kv => kv.1 == k)).map (fun kv => kv.2))

/-- Is an optional string truthy in Python (`not None` and nonempty)? -/
def pyTruthy : Option String → Bool
  | none => false
  | some s => s ≠ ""

/-- Python's `x or y` on optional strings: `y` unless `x` is truthy. -/
def pyOrStr (x y : Option String) : Option String :=
  if pyTruthy x then x else y

/-- Line 254: `img.get('src') or img.get('data-src')`. -/
def srcOf (a : Attrs) : Option String :=
  pyOrStr (pyGet a "src") (pyGet a "data-src")

/-- Line 265: `img.get('srcset') or img.get('data-srcset', '')`. -/
def srcsetOf (a : Attrs) : String :=
  (pyOrStr (pyGet a "srcset") (pyGet a "data-srcset")).getD ""

/-- Line 266: `img.get('sizes', '')`. -/
def sizesOf (a : Attrs) : String :=
  (pyGet a "sizes").getD ""

/-- `tag[k] = v` (line 314): overwrite an existing binding in place, else
append one. -/
def setAttr (a : Attrs) (k v : String) : Attrs :=
  if a.any (fun kv => kv.1 == k) then
    a.map (fun kv => if kv.1 == k then (k, v) else kv)
  else a ++ [(k, v)]

/-- Lines 262-263: prepend `/` to a source that is not absolute or
protocol-relative.  The Python code computes this normalized `src` but never
uses it afterwards. -/
def normalizeSrc (src : String) : String :=
  if strStartsWith src "http://" || strStartsWith src "https://" || strStartsWith src "//" then src
  else "/" ++ lstripSlashes src

/-- The generator's configuration: the source and target URLs and the mirror
root (`public_dir`). -/
structure Config where
  sourceUrl : String
  targetUrl : String
  publicDir : String

/-- `url_to_local_path` (lines 324-331): a root-relative URL maps directly
under `public_dir`; a URL on a third-party netloc maps to no local file;
otherwise the URL path maps under `public_dir`. -/
def url_to_local_path (cfg : Config) (url : String) : Option String :=
  if strStartsWith url "/" then some (osPathJoin cfg.publicDir (lstripSlashes url))
  else
    let pu := urlparse url
    if pu.netloc ≠ "" ∧ pu.netloc ≠ (urlparse cfg.sourceUrl).netloc ∧
        pu.netloc ≠ (urlparse cfg.targetUrl).netloc then none
    else some (osPathJoin cfg.publicDir (lstripSlashes pu.path))

/-- Line 296: `re.sub(r'\.[^.]+$', '.' + ext, s)` — replace the final
dot-suffix (which must be nonempty and dot-free) with the format extension;
when the pattern does not match, the string is returned unchanged. -/
def subExt (s ext : String) : String :=
  let cs := s.toList
  match lastIdxOf cs '.' with
  | none => s
  | some i =>
      if i + 1 < cs.length then String.mk (cs.take i) ++ "." ++ ext
      else s

/-- The alternate formats in the priority order of line 285. -/
def img_formats : List (String × String) :=
  [("jxl", "image/jxl"), ("avif", "image/avif"), ("webp", "image/webp")]

/-- Lines 289-299: candidate srcset entries for one format — each
comma-separated entry of the original srcset is stripped, split on
whitespace, kept only when it has exactly a URL and a descriptor, rewritten to
the format's extension, and kept only when its resolved local path exists. -/
def buildSrcsetEntries (cfg : Config) (ex : String → Bool)
    (origSrcset fmtExt : String) : List String :=
  (splitOnChar origSrcset ',').filterMap (fun rawEntry =>
    let entry := strTrim rawEntry
    if entry = "" then none
    else
      match pySplitWs entry with
      | [origSrc, width] =>
          let newSrc := subExt origSrc fmtExt
          match url_to_local_path cfg newSrc with
          | some lp => if lp ≠ "" ∧ ex lp = true then some (newSrc ++ " " ++ width) else none
          | none => none
      | _ => none)

/-- Lines 287-307: one `<source>` element per format that has at least one
surviving srcset entry, in priority order, carrying `type`, the joined
`srcset`, and `sizes` when the `<img>` had one. -/
def buildSources (cfg : Config) (ex : String → Bool) (a : Attrs) : List Node :=
  let sizes := sizesOf a
  img_formats.filterMap (fun ft =>
    let entries := buildSrcsetEntries cfg ex (srcsetOf a) ft.1
    if entries.isEmpty then none
    else some (Node.elem "source"
      (("type", ft.2) :: ("srcset", joinSep ", " entries) ::
        (if sizes ≠ "" then [("sizes", sizes)] else []))
      []))

/-- Lines 309-311: `for source in reversed(sources): picture.insert(0, source)`. -/
def insertAtFront (srcs : List Node) (cs : List Node) : List Node :=
  srcs.reverse.foldl (fun acc s => s :: acc) cs

/-- The per-image body of the rewriter for an `<img>` whose parent is not a
`<picture>` (lines 253-316): skip it when it has no truthy `src`/`data-src`;
otherwise wrap it in a fresh attribute-less `<picture>`, insert the emitted
`<source>` elements at the front, and set `loading="lazy"` on the `<img>`.
The `gallery` flag mirrors line 269; on a freshly created `<picture>` the
source-removal of lines 280-283 finds nothing either way. -/
def processImg (cfg : Config) (ex : String → Bool) (gallery : Bool)
    (a : Attrs) (cs : List Node) : Node :=
  if pyTruthy (srcOf a) then
    Node.elem "picture" []
      (insertAtFront (buildSources cfg ex a)
        [Node.elem "img" (setAttr a "loading" "lazy") cs])
  else Node.elem "img" a cs

/-- Is a node an `<img>` element? -/
def isImgNode : Node → Bool
  | .elem nm _ _ => nm == "img"
  | _ => false

mutual

/-- `source.decompose()` under `picture.find_all('source')` (lines 281-283):
remove every `<source>` element of the subtree. -/
def removeSourcesDeep : List Node → List Node
  | [] => []
  | n :: rest =>
      match n with
      | .text s => Node.text s :: removeSourcesDeep rest
      | .elem nm a cs =>
          if nm == "source" then removeSourcesDeep rest
          else Node.elem nm a (removeSourcesDeep cs) :: removeSourcesDeep rest

end

/-- The attributes/children of the i-th direct `<img>` child. -/
def nthDirectImg : List Node → Nat → Option (Attrs × List Node)
  | [], _ => none
  | .elem nm a cs :: rest, i =>
      if nm == "img" then
        match i with
        | 0 => some (a, cs)
        | i + 1 => nthDirectImg rest i
      else nthDirectImg rest i
  | _ :: rest, i => nthDirectImg rest i

/-- Set `loading="lazy"` on the i-th direct `<img>` child (line 314). -/
def setLoadingNthImg : List Node → Nat → List Node
  | [], _ => []
  | .elem nm a cs :: rest, i =>
      if nm == "img" then
        match i with
        | 0 => Node.elem nm (setAttr a "loading" "lazy") cs :: rest
        | i + 1 => Node.elem nm a cs :: setLoadingNthImg rest i
      else Node.elem nm a cs :: setLoadingNthImg rest i
  | n :: rest, i => n :: setLoadingNthImg rest i

/-- The body of the rewriter for the `<img>` children of an existing
`<picture>` (lines 253-316 with `parent.name == 'picture'`): the images are
processed in document order; for each one with a truthy source the existing
`<source>` elements are removed unless in a gallery, the new sources are
inserted at the front, and the `<img>` gets `loading="lazy"`. -/
def pictureLoop (cfg : Config) (ex : String → Bool) (gallery : Bool) :
    Nat → Nat → List Node → List Node
  | 0, _, cs => cs
  | k + 1, i, cs =>
      match nthDirectImg cs i with
      | none => cs
      | some (a, _) =>
          if pyTruthy (srcOf a) then
            let cs1 := if gallery then cs else removeSourcesDeep cs
            pictureLoop cfg ex gallery k (i + 1)
              (insertAtFront (buildSources cfg ex a) (setLoadingNthImg cs1 i))
          else pictureLoop cfg ex gallery k (i + 1) cs

/-- Rewriting of an existing `<picture>` element. -/
def processPicture (cfg : Config) (ex : String → Bool) (gallery : Bool)
    (a : Attrs) (cs : List Node) : Node :=
  Node.elem "picture" a
    (pictureLoop cfg ex gallery (cs.filter isImgNode).length 0 cs)

/-- Does the `class` attribute carry `kg-gallery-image` (line 269's
`class_='kg-gallery-image'` matching)? -/
def hasGalleryClass (a : Attrs) : Bool :=
  match pyGet a "class" with
  | some c => (pySplitWs c).contains "kg-gallery-image"
  | none => false

mutual

/-- One rewriting pass over a node.  `g` states whether some strict ancestor
of the node carries the `kg-gallery-image` class; an `<img>` child of this
node is a gallery image exactly when `g` holds (line 269 checks the strict
ancestors of the image's parent). -/
def rewriteNode (cfg : Config) (ex : String → Bool) (g : Bool) : Node → Node
  | .text s => .text s
  | .elem nm a cs =>
      if nm == "picture" then processPicture cfg ex g a cs
      else Node.elem nm a (rewriteChildren cfg ex g (g || hasGalleryClass a) cs)

/-- One rewriting pass over the children of an element: `<img>` children are
wrapped via `processImg` with gallery flag `gImg`; other children are
rewritten recursively with gallery flag `gChild`. -/
def rewriteChildren (cfg : Config) (ex : String → Bool) (gImg gChild : Bool) :
    List Node → List Node
  | [] => []
  | n :: rest =>
      (match n with
       | .elem nm a cs =>
           if nm == "img" then processImg cfg ex gImg a cs
           else rewriteNode cfg ex gChild (.elem nm a cs)
       | .text s => .text s) :: rewriteChildren cfg ex gImg gChild rest

end

mutual

/-- Does the subtree contain no `<img>` element? -/
def noImgNode : Node → Bool
  | .text _ => true
  | .elem nm _ cs => nm != "img" && noImgForest cs

/-- Does the forest contain no `<img>` element? -/
def noImgForest : List Node → Bool
  | [] => true
  | n :: rest => noImgNode n && noImgForest rest

end

/-! ## BeautifulSoup parse / serialize (html.parser)

`update_html_for_image_formats` reads each HTML file, parses it with
`BeautifulSoup(content, 'html.parser')`, rewrites the tree, and writes
`str(soup)` back (lines 248-251 and 320-321) — the write-back happens whether
or not any image was processed.  The parser and serializer below model the
html.parser behaviour on plain well-formed markup: tag and attribute names
are lowercased, void elements (`<br>`, `<img>`, ...) take no children and are
serialized in the `<br/>` style that BeautifulSoup emits, attribute values
are always serialized in double quotes, and text is minimally entity-escaped. -/

/-- The HTML void elements as known to html.parser/BeautifulSoup. -/
def voidTags : List String :=
  ["area", "base", "br", "col", "embed", "hr", "img", "input",
   "link", "meta", "param", "source", "track", "wbr"]

/-- Minimal entity escaping of text content (`&`, `<`, `>`). -/
def escapeMinimal (s : String) : String :=
  String.join (s.toList.map (fun c =>
    if c = '&' then "&amp;"
    else if c = '<' then "&lt;"
    else if c = '>' then "&gt;"
    else String.mk [c]))

/-- Entity escaping of attribute values (also `"`). -/
def escapeAttrVal (s : String) : String :=
  String.join (s.toList.map (fun c =>
    if c = '&' then "&amp;"
    else if c = '<' then "&lt;"
    else if c = '>' then "&gt;"
    else if c = '"' then "&quot;"
    else String.mk [c]))

mutual

/-- `str(node)`: BeautifulSoup's serialization of one node. -/
def serializeNode : Node → String
  | .text s => escapeMinimal s
  | .elem nm a cs =>
      let attrsStr := String.join (a.map (fun kv =>
        " " ++ kv.1 ++ "=\"" ++ escapeAttrVal kv.2 ++ "\""))
      if nm ∈ voidTags ∧ cs.isEmpty = true then "<" ++ nm ++ attrsStr ++ "/>"
      else "<" ++ nm ++ attrsStr ++ ">" ++ serializeForest cs ++ "</" ++ nm ++ ">"

/-- `str(soup)`: serialization of the whole document forest. -/
def serializeForest : List Node → String
  | [] => ""
  | n :: rest => serializeNode n ++ serializeForest rest

end

/-- Is a character allowed in a tag or attribute name? -/
def isNameChar (c : Char) : Bool :=
  c.isAlphanum || c = '-' || c = '_' || c = ':'

/-- Read a maximal run of name characters, lowercased. -/
def readName (cs : List Char) : List Char × List Char :=
  ((cs.takeWhile isNameChar).map Char.toLower, cs.dropWhile isNameChar)

/-- Skip leading whitespace. -/
def skipWs (cs : List Char) : List Char :=
  cs.dropWhile (fun c => c.isWhitespace)

/-- Parse the attribute list of a start tag up to its closing `>`.  Returns
the attributes, the remaining input after `>`, and whether the tag was
self-closing (`/>`). -/
def parseAttrsLoop : Nat → List Char → Attrs × List Char × Bool
  | 0, cs => ([], cs, false)
  | fuel + 1, cs =>
      match skipWs cs with
      | [] => ([], [], false)
      | '>' :: rest => ([], rest, false)
      | '/' :: '>' :: rest => ([], rest, true)
      | cs1 =>
          let (nm, cs2) := readName cs1
          if nm.isEmpty then
            -- stray character: skip it to make progress
            ([], (skipWs cs1).drop 1, false)
          else
            match skipWs cs2 with
            | '=' :: cs3 =>
                match skipWs cs3 with
                | '"' :: cs4 =>
                    let v := cs4.takeWhile (fun c => c ≠ '"')
                    let cs5 := (cs4.dropWhile (fun c => c ≠ '"')).drop 1
                    let (rest, tail, sc) := parseAttrsLoop fuel cs5
                    ((String.mk nm, String.mk v) :: rest, tail, sc)
                | cs4 =>
                    let v := cs4.takeWhile (fun c =>
                      !c.isWhitespace ∧ c ≠ '>' ∧ c ≠ '/')
                    let cs5 := cs4.dropWhile (fun c =>
                      !c.isWhitespace ∧ c ≠ '>' ∧ c ≠ '/')
                    let (rest, tail, sc) := parseAttrsLoop fuel cs5
                    ((String.mk nm, String.mk v) :: rest, tail, sc)
            | cs3 =>
                let (rest, tail, sc) := parseAttrsLoop fuel cs3
                ((String.mk nm, "") :: rest, tail, sc)

/-- Skip a well-formed closing tag `</name>` at the head of the input. -/
def skipClosingTag (cs : List Char) : List Char :=
  match cs with
  | '<' :: '/' :: rest =>
      let rest1 := (readName rest).2
      match skipWs rest1 with
      | '>' :: rest2 => rest2
      | other => other
  | other => other

/-- Parse a sequence of sibling nodes, stopping at a closing tag or at the end
of input.  Returns the nodes and the unconsumed input. -/
def parseNodes : Nat → List Char → List Node × List Char
  | 0, cs => ([], cs)
  | fuel + 1, cs =>
      match cs with
      | [] => ([], [])
      | '<' :: '/' :: _ => ([], cs)
      | '<' :: rest =>
          let (nmCs, rest1) := readName rest
          if nmCs.isEmpty then
            let (ns, tail) := parseNodes fuel rest
            (Node.text "<" :: ns, tail)
          else
            let nm := String.mk nmCs
            let (attrs, rest2, selfClosed) := parseAttrsLoop (rest1.length + 1) rest1
            if nm ∈ voidTags ∨ selfClosed then
              let (ns, tail) := parseNodes fuel rest2
              (Node.elem nm attrs [] :: ns, tail)
            else
              let (kids, rest3) := parseNodes fuel rest2
              let rest4 := skipClosingTag rest3
              let (ns, tail) := parseNodes fuel rest4
              (Node.elem nm attrs kids :: ns, tail)
      | _ =>
          let txt := cs.takeWhile (fun c => c ≠ '<')
          let (ns, tail) := parseNodes fuel (cs.dropWhile (fun c => c ≠ '<'))
          (Node.text (String.mk txt) :: ns, tail)

/-- `BeautifulSoup(content, 'html.parser')`: the parsed document forest. -/
def parseHtml (content : String) : List Node :=
  (parseNodes (2 * content.length + 8) content.toList).1

/-- Lines 248-251 and 320-321 of `update_html_for_image_formats` for one HTML
file: parse the content, rewrite every `<img>`, and write back the
serialization of the resulting tree — unconditionally, whether or not any
image was found. -/
def rewriteHtmlFile (cfg : Config) (ex : String → Bool) (content : String) : String :=
  serializeForest (rewriteChildren cfg ex false false (parseHtml content))

/-- The `type` attribute of an element node. -/
def source_type_attr : Node → Option String
  | .elem _ a _ => pyGet a "type"
  | _ => none

/-! ## Helper lemmas -/

theorem insertAtFront_eq_append (srcs cs : List Node) :
    insertAtFront srcs cs = srcs ++ cs := by
  induction srcs with
  | nil => rfl
  | cons x t ih =>
      simp only [insertAtFront, List.reverse_cons, List.foldl_append, List.foldl_cons,
        List.foldl_nil] at *
      rw [ih, List.cons_append]

theorem pyGet_cons (kv : String × String) (t : Attrs) (k : String) :
    pyGet (kv :: t) k = if kv.1 == k then some kv.2 else pyGet t k := by
  simp only [pyGet, List.find?_cons]
  by_cases h : kv.1 == k <;> simp [h]

theorem pyGet_map_set_same (a : Attrs) (k v : String)
    (h : a.any (fun kv => kv.1 == k) = true) :
    pyGet (a.map (fun kv => if kv.1 == k then (k, v) else kv)) k = some v := by
  induction a with
  | nil => simp at h
  | cons kv t ih =>
      by_cases hk : kv.1 = k
      · simp [pyGet_cons, hk]
      · have hb : (kv.1 == k) = false := by simp [hk]
        have ht : t.any (fun kv => kv.1 == k) = true := by
          rcases List.any_eq_true.mp h with ⟨x, hx, hbx⟩
          rcases List.mem_cons.mp hx with rfl | hx'
          · rw [hb] at hbx; cases hbx
          · exact List.any_eq_true.mpr ⟨x, hx', hbx⟩
        simp only [List.map_cons, hb, Bool.false_eq_true, if_neg, not_false_iff]
        rw [pyGet_cons]
        simp only [hb, Bool.false_eq_true, if_neg, not_false_iff]
        exact ih ht

theorem pyGet_setAttr_same (a : Attrs) (k v : String) :
    pyGet (setAttr a k v) k = some v := by
  unfold setAttr
  by_cases h : a.any (fun kv => kv.1 == k)
  · rw [if_pos h]
    exact pyGet_map_set_same a k v h
  · rw [if_neg h]
    have hn : a.find? (fun kv => kv.1 == k) = none := by
      rw [List.find?_eq_none]
      intro kv hkv hb
      exact h (List.any_eq_true.mpr ⟨kv, hkv, hb⟩)
    simp [pyGet, List.find?_append, hn, List.find?]

theorem pyGet_map_set_other (a : Attrs) (k v k' : String) (hne : k' ≠ k) :
    pyGet (a.map (fun kv => if kv.1 == k then (k, v) else kv)) k' = pyGet a k' := by
  have hkk : (k == k') = false := by
    simp only [beq_eq_false_iff_ne, ne_eq]
    exact fun hh => hne hh.symm
  induction a with
  | nil => rfl
  | cons kv t ih =>
      by_cases hk : kv.1 = k
      · have hb3 : (kv.1 == k') = false := by rw [hk]; exact hkk
        have hb1 : (kv.1 == k) = true := by simp [hk]
        simp only [List.map_cons, hb1, if_pos]
        rw [pyGet_cons, pyGet_cons, hb3]
        simp only [hkk, Bool.false_eq_true, if_neg, not_false_iff]
        exact ih
      · have hb : (kv.1 == k) = false := by simp [hk]
        simp only [List.map_cons, hb, Bool.false_eq_true, if_neg, not_false_iff]
        rw [pyGet_cons, pyGet_cons]
        by_cases hk' : kv.1 == k'
        · simp [hk']
        · have hb' : (kv.1 == k') = false := by simpa using hk'
          simp only [hb', Bool.false_eq_true, if_neg, not_false_iff]
          exact ih

theorem pyGet_setAttr_other (a : Attrs) (k v k' : String) (hne : k' ≠ k) :
    pyGet (setAttr a k v) k' = pyGet a k' := by
  unfold setAttr
  by_cases h : a.any (fun kv => kv.1 == k)
  · rw [if_pos h]
    exact pyGet_map_set_other a k v k' hne
  · rw [if_neg h]
    have hkk : (k == k') = false := by
      simp only [beq_eq_false_iff_ne, ne_eq]
      exact fun hh => hne hh.symm
    have hone : List.find? (fun kv => kv.1 == k') [(k, v)] = none := by
      simp [List.find?, hkk]
    simp [pyGet, List.find?_append, hone]

/-! ## C4 — URL to path mapping -/

/-- C4: the URL-to-path mapping is a pure function of the URL with the three
stated cases — an empty (after stripping leading slashes) path maps to
`index.html`, a trailing-slash path gets `index.html` appended, any other path
is used verbatim — and `urlToPath("https://h/")` equals
`urlToPath("https://h/index.html")`. -/
theorem c4_url_to_path :
    (∀ u : String, lstripSlashes (urlparse u).path = "" →
        save_file_relpath u = "index.html") ∧
    (∀ u : String, lstripSlashes (urlparse u).path ≠ "" →
        strEndsWith (lstripSlashes (urlparse u).path) "/" = true →
        save_file_relpath u = lstripSlashes (urlparse u).path ++ "index.html") ∧
    (∀ u : String, lstripSlashes (urlparse u).path ≠ "" →
        strEndsWith (lstripSlashes (urlparse u).path) "/" = false →
        save_file_relpath u = lstripSlashes (urlparse u).path) ∧
    save_file_relpath "https://h/" = save_file_relpath "https://h/index.html" := by
  refine ⟨?_, ?_, ?_, by decide⟩
  · intro u h
    simp [save_file_relpath, h]
  · intro u h1 h2
    simp [save_file_relpath, h1, h2]
  · intro u h1 h2
    simp [save_file_relpath, h1, h2]

/-- Witness for C4 at concrete URLs. -/
theorem c4_url_to_path_witness :
    save_file_relpath "http://example.com:2368" = "index.html" ∧
    save_file_relpath "https://h/blog/" = "blog/index.html" ∧
    save_file_relpath "https://h/a/b.css" = "a/b.css" ∧
    save_file_relpath "https://h/" = save_file_relpath "https://h/index.html" :=
  ⟨c4_url_to_path.1 "http://example.com:2368" (by decide),
   (c4_url_to_path.2.1 "https://h/blog/" (by decide) (by decide)).trans (by decide),
   (c4_url_to_path.2.2.1 "https://h/a/b.css" (by decide) (by decide)).trans (by decide),
   c4_url_to_path.2.2.2⟩

/-! ## C8 — image selection for transcoding -/

/-- C8 counterexample: the selection of `convert_images` looks only at the
file extension, not at the content sniff.  A content-sniffed raster image
stored as `public/photo.bin` is not planned, while a non-image file named
`public/fake.jpg` is planned; the spec-modelled sniff-based planner decides
both the other way. -/
theorem c8_extension_counterexample :
    convert_images_select [⟨"public/photo.bin", true⟩] (fun _ => false) false = [] ∧
    plan_work_spec [⟨"public/photo.bin", true⟩] (fun _ => false) false
      = ["public/photo.bin"] ∧
    convert_images_select [⟨"public/fake.jpg", false⟩] (fun _ => false) false
      = ["public/fake.jpg"] ∧
    plan_work_spec [⟨"public/fake.jpg", false⟩] (fun _ => false) false = [] := by
  exact ⟨by decide, by decide, by decide, by decide⟩

/-- C8 (amended): the plan selects exactly the files whose lowercased name
ends in `.jpg`/`.jpeg`/`.png`/`.gif` — the content sniff is never consulted
(the selection is invariant under arbitrary reassignment of every sniff
flag) — and, with `forceReconvert` off, whose expected derived outputs are
incomplete; every file with a matching extension and incomplete outputs is
planned, and no file without a matching extension ever is. -/
theorem c8_extension_based_amended :
    (∀ (files : List MirrorEntry) (ex : String → Bool) (force b : Bool),
        convert_images_select (files.map (fun e => ⟨e.path, b⟩)) ex force
          = convert_images_select files ex force) ∧
    (∀ (files : List MirrorEntry) (ex : String → Bool) (e : MirrorEntry),
        e ∈ files → hasImageExt e.path = true →
        (expected_outputs e.path).all ex = false →
        e.path ∈ convert_images_select files ex false) ∧
    (∀ (files : List MirrorEntry) (ex : String → Bool) (force : Bool) (p : String),
        p ∈ convert_images_select files ex force → hasImageExt p = true) := by
  refine ⟨?_, ?_, ?_⟩
  · intro files ex force b
    simp only [convert_images_select, List.map_map]
    rfl
  · intro files ex e he hext hall
    unfold convert_images_select convert_images_plan
    apply List.mem_filter.mpr
    refine ⟨List.mem_map.mpr ⟨e, he, rfl⟩, ?_⟩
    simp [hext, hall]
  · intro files ex force p hp
    unfold convert_images_select convert_images_plan at hp
    have h2 := (List.mem_filter.mp hp).2
    simp only [Bool.and_eq_true] at h2
    exact h2.1

/-- Witness for the amended C8 at concrete inputs. -/
theorem c8_extension_based_amended_witness :
    convert_images_select [(⟨"public/x.PNG", false⟩ : MirrorEntry)] (fun _ => false) false
      = convert_images_select [(⟨"public/x.PNG", true⟩ : MirrorEntry)] (fun _ => false) false ∧
    "public/x.PNG" ∈ convert_images_select [(⟨"public/x.PNG", false⟩ : MirrorEntry)]
      (fun _ => false) false ∧
    hasImageExt "public/x.PNG" = true :=
  ⟨(c8_extension_based_amended.1 [⟨"public/x.PNG", true⟩] (fun _ => false) false false),
   c8_extension_based_amended.2.1 [⟨"public/x.PNG", false⟩] (fun _ => false)
     ⟨"public/x.PNG", false⟩ (by decide) (by decide) (by decide),
   c8_extension_based_amended.2.2 [⟨"public/x.PNG", false⟩] (fun _ => false) false
     "public/x.PNG"
     (c8_extension_based_amended.2.1 [⟨"public/x.PNG", false⟩] (fun _ => false)
       ⟨"public/x.PNG", false⟩ (by decide) (by decide) (by decide))⟩

/-! ## C2 — transcode idempotence and force-reconvert -/

theorem convert_one_force_snd (st : Store × List (String × String)) (i f : String) :
    (convert_one true st i f).2 = st.2 ++ [(i, f)] := by
  simp [convert_one]

theorem process_image_force_snd (st : Store × List (String × String)) (i : String) :
    (process_image true st i).2 = st.2 ++ [(i, "webp"), (i, "avif"), (i, "jxl")] := by
  simp [process_image, transcode_formats, convert_one_force_snd]

theorem foldl_process_image_force (plan : List String)
    (st : Store × List (String × String)) :
    (plan.foldl (fun acc i => process_image true acc i) st).2
      = st.2 ++ plan.flatMap (fun i => [(i, "webp"), (i, "avif"), (i, "jxl")]) := by
  induction plan generalizing st with
  | nil => simp
  | cons x t ih => simp [ih, process_image_force_snd]

/-- C2: on a mirror in which every file with a raster-image extension already
has all three derived outputs, `convert_images` with `force_reconvert` off
performs zero conversions and returns the mirror unchanged; with
`force_reconvert` on, every qualifying image gets all three conversions
performed even though the outputs are present. -/
theorem c2_transcode_idempotent :
    (∀ st : Store,
        (∀ p ∈ st.map Prod.fst, hasImageExt p = true →
            (expected_outputs p).all (fun o => (readStore st o).isSome) = true) →
        convert_images st false = (st, [])) ∧
    (∀ st : Store,
        (convert_images st true).2
          = ((st.map Prod.fst).filter (fun p => hasImageExt p)).flatMap
              (fun i => transcode_formats.map (fun f => (i, f)))) := by
  constructor
  · intro st h
    have hplan : convert_images_plan (st.map Prod.fst)
        (fun p => (readStore st p).isSome) false = [] := by
      rw [convert_images_plan, List.filter_eq_nil_iff]
      intro p hp
      by_cases hext : hasImageExt p
      · simp [hext, h p hp hext]
      · simp [hext]
    simp [convert_images, hplan]
  · intro st
    have hplan : convert_images_plan (st.map Prod.fst)
        (fun p => (readStore st p).isSome) true
        = (st.map Prod.fst).filter (fun p => hasImageExt p) := by
      unfold convert_images_plan
      apply List.filter_congr
      intro p hp
      simp
    simp [convert_images, hplan, foldl_process_image_force, transcode_formats]

/-- Witness for C2 at a concrete fully-converted mirror and a concrete forced
reconversion. -/
theorem c2_transcode_idempotent_witness :
    convert_images [("public/a.jpg", "J"), ("public/a.webp", "W"),
        ("public/a.avif", "A"), ("public/a.jxl", "X")] false
      = ([("public/a.jpg", "J"), ("public/a.webp", "W"),
          ("public/a.avif", "A"), ("public/a.jxl", "X")], []) ∧
    (convert_images [("public/b.png", "B")] true).2
      = [("public/b.png", "webp"), ("public/b.png", "avif"), ("public/b.png", "jxl")] :=
  ⟨c2_transcode_idempotent.1 _ (by decide),
   (c2_transcode_idempotent.2 [("public/b.png", "B")]).trans (by decide)⟩

/-! ## C6 — each URL fetched at most once -/

theorem scrape_inv_nodup (web : String → FetchOutcome) (src pub : String) :
    ∀ fuel : Nat,
      (∀ (url : String) (s : CrawlState),
          s.fetches.Nodup → (∀ u ∈ s.fetches, u ∈ s.visited) →
          (scrape_url web src pub fuel url s).fetches.Nodup ∧
          (∀ u ∈ (scrape_url web src pub fuel url s).fetches,
              u ∈ (scrape_url web src pub fuel url s).visited)) ∧
      (∀ (urls : List String) (s : CrawlState),
          s.fetches.Nodup → (∀ u ∈ s.fetches, u ∈ s.visited) →
          (scrape_list web src pub fuel urls s).fetches.Nodup ∧
          (∀ u ∈ (scrape_list web src pub fuel urls s).fetches,
              u ∈ (scrape_list web src pub fuel urls s).visited)) := by
  intro fuel
  induction fuel with
  | zero =>
      constructor
      · intro url s h1 h2
        simpa [scrape_url] using ⟨h1, h2⟩
      · intro urls s h1 h2
        simpa [scrape_list] using ⟨h1, h2⟩
  | succ fuel ih =>
      have step : ∀ (url : String) (s : CrawlState),
          url ∉ s.visited → s.fetches.Nodup → (∀ u ∈ s.fetches, u ∈ s.visited) →
          (s.fetches ++ [url]).Nodup ∧
          (∀ u ∈ s.fetches ++ [url], u ∈ url :: s.visited) := by
        intro url s hv h1 h2
        constructor
        · refine List.Nodup.append h1 (List.nodup_singleton url) ?_
          intro a ha hb
          rw [List.mem_singleton] at hb
          subst hb
          exact hv (h2 a ha)
        · intro u hu
          rcases List.mem_append.mp hu with h | h
          · exact List.mem_cons_of_mem url (h2 u h)
          · rw [List.mem_singleton] at h
            subst h
            exact List.mem_cons_self u s.visited
      constructor
      · intro url s h1 h2
        rw [scrape_url]
        by_cases hv : url ∈ s.visited
        · simpa [hv] using ⟨h1, h2⟩
        · rcases step url s hv h1 h2 with ⟨h1', h2'⟩
          simp only [hv, if_false]
          cases hw : web url with
          | fetchError => exact ⟨h1', h2'⟩
          | htmlPage content links => exact ih.2 _ _ h1' h2'
          | filePayload content => exact ⟨h1', h2'⟩
      · intro urls s h1 h2
        cases urls with
        | nil => simpa [scrape_list] using ⟨h1, h2⟩
        | cons u us =>
            rw [scrape_list]
            rcases ih.1 u s h1 h2 with ⟨h1', h2'⟩
            exact ih.2 us _ h1' h2'

/-- C6: during one crawl each URL is fetched at most once — starting from a
fresh state the fetch log never repeats a URL — an already-seen URL is a
no-op, and on a fixture site with three reachable same-origin URLs, each
linked several times plus one cross-origin link, exactly three fetches
occur. -/
theorem c6_fetch_at_most_once :
    (∀ (web : String → FetchOutcome) (src pub : String) (fuel : Nat) (url : String)
        (s : CrawlState), url ∈ s.visited → scrape_url web src pub fuel url s = s) ∧
    (∀ (web : String → FetchOutcome) (src pub : String) (fuel : Nat) (url : String),
        (scrape_url web src pub fuel url ⟨[], [], []⟩).fetches.Nodup) ∧
    (scrape_url (fun u =>
        if u == "http://h" then
          .htmlPage "A" ["http://h/b", "http://h/c.css", "http://h/b", "http://h/c.css",
            "http://evil/x"]
        else if u == "http://h/b" then .htmlPage "B" ["http://h", "http://h/c.css"]
        else .filePayload "C")
      "http://h" "public" 20 "http://h" ⟨[], [], []⟩).fetches
      = ["http://h", "http://h/b", "http://h/c.css"] := by
  refine ⟨?_, ?_, by decide⟩
  · intro web src pub fuel url s hv
    cases fuel with
    | zero => rw [scrape_url]
    | succ fuel => rw [scrape_url, if_pos hv]
  · intro web src pub fuel url
    exact ((scrape_inv_nodup web src pub fuel).1 url ⟨[], [], []⟩
      List.nodup_nil (by intro u hu; cases hu)).1

/-- Witness for C6 at a concrete already-visited URL. -/
theorem c6_fetch_at_most_once_witness :
    scrape_url (fun _ => FetchOutcome.filePayload "X") "http://h" "public" 7 "http://h"
      ⟨["http://h"], ["http://h"], []⟩ = ⟨["http://h"], ["http://h"], []⟩ ∧
    (scrape_url (fun _ => FetchOutcome.filePayload "X") "http://h" "public" 7 "http://h"
      ⟨[], [], []⟩).fetches.Nodup :=
  ⟨c6_fetch_at_most_once.1 (fun _ => FetchOutcome.filePayload "X") "http://h" "public" 7
      "http://h" ⟨["http://h"], ["http://h"], []⟩ (by decide),
   c6_fetch_at_most_once.2.1 (fun _ => FetchOutcome.filePayload "X") "http://h" "public" 7
      "http://h"⟩

/-! ## C3 — same-origin restriction -/

theorem scrape_netloc_inv (web : String → FetchOutcome) (src pub : String) :
    ∀ fuel : Nat,
      (∀ (url : String) (s : CrawlState),
          (urlparse url).netloc = (urlparse src).netloc →
          (∀ u ∈ s.fetches, (urlparse u).netloc = (urlparse src).netloc) →
          ∀ u ∈ (scrape_url web src pub fuel url s).fetches,
            (urlparse u).netloc = (urlparse src).netloc) ∧
      (∀ (urls : List String) (s : CrawlState),
          (∀ u ∈ urls, (urlparse u).netloc = (urlparse src).netloc) →
          (∀ u ∈ s.fetches, (urlparse u).netloc = (urlparse src).netloc) →
          ∀ u ∈ (scrape_list web src pub fuel urls s).fetches,
            (urlparse u).netloc = (urlparse src).netloc) := by
  intro fuel
  induction fuel with
  | zero =>
      constructor
      · intro url s _ h2
        simpa [scrape_url] using h2
      · intro urls s _ h2
        simpa [scrape_list] using h2
  | succ fuel ih =>
      have step : ∀ (url : String) (s : CrawlState),
          (urlparse url).netloc = (urlparse src).netloc →
          (∀ u ∈ s.fetches, (urlparse u).netloc = (urlparse src).netloc) →
          ∀ u ∈ s.fetches ++ [url], (urlparse u).netloc = (urlparse src).netloc := by
        intro url s hurl h2 u hu
        rcases List.mem_append.mp hu with h | h
        · exact h2 u h
        · rw [List.mem_singleton] at h
          subst h
          exact hurl
      constructor
      · intro url s hurl h2
        rw [scrape_url]
        by_cases hv : url ∈ s.visited
        · simpa [hv] using h2
        · simp only [hv, if_false]
          cases hw : web url with
          | fetchError => exact step url s hurl h2
          | htmlPage content links =>
              refine ih.2 _ _ ?_ (step url s hurl h2)
              intro u hu
              have := (List.mem_filter.mp hu).2
              unfold is_same_domain at this
              exact eq_of_beq this
          | filePayload content => exact step url s hurl h2
      · intro urls s hurls h2
        cases urls with
        | nil => simpa [scrape_list] using h2
        | cons u us =>
            rw [scrape_list]
            refine ih.2 us _ (fun v hv => hurls v (List.mem_cons_of_mem u hv)) ?_
            exact ih.1 u s (hurls u (List.mem_cons_self u us)) h2

/-- C3 counterexample: from the source origin `http://example.com:2368` a page
links to `https://example.com:2368/pic.png`, whose scheme differs from the
source's; the crawler fetches it anyway, because `is_same_domain` compares
only netlocs — so "a URL whose scheme differs is never fetched" is false. -/
theorem c3_scheme_not_checked_counterexample :
    "https://example.com:2368/pic.png" ∈
      (scrape_url (fun u =>
          if u == "http://example.com:2368" then
            .htmlPage "page" ["https://example.com:2368/pic.png"]
          else .filePayload "bin")
        "http://example.com:2368" "public" 5 "http://example.com:2368"
        ⟨[], [], []⟩).fetches ∧
    (urlparse "https://example.com:2368/pic.png").scheme
      ≠ (urlparse "http://example.com:2368").scheme :=
  ⟨by decide, by decide⟩

/-- C3 (amended): every URL fetched during a crawl seeded at the source URL
has the source's netloc (the `host[:port]` string, so host and port match);
the scheme is not compared, and a same-netloc URL with a different scheme is
fetched. -/
theorem c3_same_netloc_amended (web : String → FetchOutcome) (src pub : String)
    (fuel : Nat) :
    ∀ u ∈ (scrape_url web src pub fuel src ⟨[], [], []⟩).fetches,
      (urlparse u).netloc = (urlparse src).netloc :=
  (scrape_netloc_inv web src pub fuel).1 src ⟨[], [], []⟩ rfl
    (by intro u hu; cases hu)

/-- Witness for the amended C3: the cross-scheme URL fetched in the
counterexample crawl indeed has the source's netloc. -/
theorem c3_same_netloc_amended_witness :
    (urlparse "https://example.com:2368/pic.png").netloc
      = (urlparse "http://example.com:2368").netloc :=
  c3_same_netloc_amended (fun u =>
      if u == "http://example.com:2368" then
        .htmlPage "page" ["https://example.com:2368/pic.png"]
      else .filePayload "bin")
    "http://example.com:2368" "public" 5 "https://example.com:2368/pic.png" (by decide)

/-! ## C7 — fetch failures are skipped, the crawl continues -/

/-- C7: a fetch failure (the caught `RequestException` path: network error,
timeout or non-2xx status) never aborts the crawl — the failing URL is marked
visited and logged as fetched but no file is written for it, the remaining
frontier is still processed, and on a concrete two-URL frontier whose first
URL fails only the second URL's file is saved while both URLs are fetched. -/
theorem c7_fetch_failure_skipped :
    (∀ (web : String → FetchOutcome) (src pub : String) (fuel : Nat) (url : String)
        (s : CrawlState), web url = .fetchError →
        (scrape_url web src pub (fuel + 1) url s).saved = s.saved) ∧
    (∀ (web : String → FetchOutcome) (src pub : String) (fuel : Nat) (u : String)
        (us : List String) (s : CrawlState),
        scrape_list web src pub (fuel + 1) (u :: us) s
          = scrape_list web src pub fuel us (scrape_url web src pub fuel u s)) ∧
    (scrape_list (fun u => if u == "http://h/bad" then .fetchError
          else .filePayload "G")
        "http://h" "public" 5 ["http://h/bad", "http://h/good.css"] ⟨[], [], []⟩).saved
        = [("public/good.css", "G")] ∧
    (scrape_list (fun u => if u == "http://h/bad" then .fetchError
          else .filePayload "G")
        "http://h" "public" 5 ["http://h/bad", "http://h/good.css"] ⟨[], [], []⟩).fetches
        = ["http://h/bad", "http://h/good.css"] := by
  refine ⟨?_, ?_, by decide, by decide⟩
  · intro web src pub fuel url s herr
    rw [scrape_url]
    by_cases hv : url ∈ s.visited
    · rw [if_pos hv]
    · rw [if_neg hv, herr]
  · intro web src pub fuel u us s
    rw [scrape_list]

/-- Witness for C7 at a concrete failing URL and frontier. -/
theorem c7_fetch_failure_skipped_witness :
    (scrape_url (fun _ => FetchOutcome.fetchError) "http://h" "public" 4 "http://h/x"
      ⟨[], [], [("public/old.css", "O")]⟩).saved = [("public/old.css", "O")] ∧
    scrape_list (fun _ => FetchOutcome.fetchError) "http://h" "public" 4
        ["http://h/x"] ⟨[], [], []⟩
      = scrape_list (fun _ => FetchOutcome.fetchError) "http://h" "public" 3 []
          (scrape_url (fun _ => FetchOutcome.fetchError) "http://h" "public" 3
            "http://h/x" ⟨[], [], []⟩) :=
  ⟨c7_fetch_failure_skipped.1 (fun _ => FetchOutcome.fetchError) "http://h" "public" 3
      "http://h/x" ⟨[], [], [("public/old.css", "O")]⟩ rfl,
   c7_fetch_failure_skipped.2.1 (fun _ => FetchOutcome.fetchError) "http://h" "public" 3
      "http://h/x" [] ⟨[], [], []⟩⟩

/-! ## C1 — source ordering, placement, lazy loading, untouched img -/

theorem filterMap_source_types (f : String × String → List String)
    (g : String × String → List String → Node)
    (hg : ∀ ft entries, source_type_attr (g ft entries) = some ft.2) :
    ∀ fts : List (String × String),
      ((fts.filterMap (fun ft =>
          if (f ft).isEmpty then none else some (g ft (f ft)))).map source_type_attr)
        = (fts.filter (fun ft => !(f ft).isEmpty)).map (fun ft => some ft.2) := by
  intro fts
  induction fts with
  | nil => rfl
  | cons ft t ih =>
      cases hb : (f ft).isEmpty with
      | true =>
          simp only [List.filterMap_cons, List.filter_cons, hb, Bool.not_true]
          simpa using ih
      | false =>
          simp only [List.filterMap_cons, List.filter_cons, hb, Bool.not_false]
          simpa [hg] using ih

/-- C1: an `<img>` with a truthy source rewritten by the wrap path of
`update_html_for_image_formats` ends up inside a `<picture>` whose children
are the emitted `<source>` elements followed by the `<img>`: the sources sit
before the `<img>`, their `type`s follow the priority order jxl, avif, webp
with any format lacking surviving srcset entries omitted, `loading="lazy"` is
set on the `<img>`, and the `<img>`'s own `src` and `srcset` attributes are
unchanged (still the original un-transcoded asset). -/
theorem c1_sources_before_img (cfg : Config) (ex : String → Bool) (gal : Bool)
    (a : Attrs) (cs : List Node) (h : pyTruthy (srcOf a) = true) :
    ∃ srcs imgAttrs,
      processImg cfg ex gal a cs
        = Node.elem "picture" [] (srcs ++ [Node.elem "img" imgAttrs cs]) ∧
      srcs.map source_type_attr
        = (img_formats.filter
            (fun ft => !(buildSrcsetEntries cfg ex (srcsetOf a) ft.1).isEmpty)).map
            (fun ft => some ft.2) ∧
      pyGet imgAttrs "loading" = some "lazy" ∧
      pyGet imgAttrs "src" = pyGet a "src" ∧
      pyGet imgAttrs "srcset" = pyGet a "srcset" := by
  refine ⟨buildSources cfg ex a, setAttr a "loading" "lazy", ?_, ?_, ?_, ?_, ?_⟩
  · rw [processImg, if_pos h, insertAtFront_eq_append]
  · exact filterMap_source_types
      (fun ft => buildSrcsetEntries cfg ex (srcsetOf a) ft.1)
      (fun ft entries => Node.elem "source"
        (("type", ft.2) :: ("srcset", joinSep ", " entries) ::
          (if sizesOf a ≠ "" then [("sizes", sizesOf a)] else [])) [])
      (fun ft entries => by simp [source_type_attr, pyGet_cons]) img_formats
  · exact pyGet_setAttr_same a "loading" "lazy"
  · exact pyGet_setAttr_other a "loading" "lazy" "src" (by decide)
  · exact pyGet_setAttr_other a "loading" "lazy" "srcset" (by decide)

/-- Witness for C1 on the spec's end-to-end scenario (`a.webp` and `a.avif`
present, `a.jxl` absent). -/
theorem c1_sources_before_img_witness :
    pyTruthy (srcOf [("src", "/a.jpg"), ("srcset", "/a.jpg 800w")]) = true ∧
    (∃ srcs imgAttrs,
      processImg ⟨"http://example.com:2368", "https://dev.cadenkraft.com", "public"⟩
          (fun p => p == "public/a.webp" || p == "public/a.avif") false
          [("src", "/a.jpg"), ("srcset", "/a.jpg 800w")] []
        = Node.elem "picture" [] (srcs ++ [Node.elem "img" imgAttrs []]) ∧
      srcs.map source_type_attr
        = (img_formats.filter
            (fun ft => !(buildSrcsetEntries
                ⟨"http://example.com:2368", "https://dev.cadenkraft.com", "public"⟩
                (fun p => p == "public/a.webp" || p == "public/a.avif")
                (srcsetOf [("src", "/a.jpg"), ("srcset", "/a.jpg 800w")]) ft.1).isEmpty)).map
            (fun ft => some ft.2) ∧
      pyGet imgAttrs "loading" = some "lazy" ∧
      pyGet imgAttrs "src" = pyGet [("src", "/a.jpg"), ("srcset", "/a.jpg 800w")] "src" ∧
      pyGet imgAttrs "srcset"
        = pyGet [("src", "/a.jpg"), ("srcset", "/a.jpg 800w")] "srcset") :=
  ⟨by decide,
   c1_sources_before_img ⟨"http://example.com:2368", "https://dev.cadenkraft.com", "public"⟩
     (fun p => p == "public/a.webp" || p == "public/a.avif") false
     [("src", "/a.jpg"), ("srcset", "/a.jpg 800w")] [] (by decide)⟩

/-! ## C5 — candidate srcset building -/

/-- C5 counterexample: an `<img>` with `src="/a.jpg"`, no `srcset`, and an
existing webp alternate (`/a.webp` resolves to `public/a.webp`, which the
existence oracle confirms) is rewritten with NO `<source>` elements at all:
the code builds candidates only from the original `srcset` pairs and never
substitutes the format extension into the unscaled base name taken from
`src`, contradicting the claim that a webp `<source>` would be emitted. -/
theorem c5_src_basename_counterexample :
    processImg ⟨"http://example.com:2368", "https://dev.cadenkraft.com", "public"⟩
        (fun p => p == "public/a.webp") false [("src", "/a.jpg")] []
      = Node.elem "picture" []
          [Node.elem "img" [("src", "/a.jpg"), ("loading", "lazy")] []] ∧
    (fun p => p == "public/a.webp") "public/a.webp" = true ∧
    subExt "/a.jpg" "webp" = "/a.webp" ∧
    url_to_local_path ⟨"http://example.com:2368", "https://dev.cadenkraft.com", "public"⟩
        "/a.webp" = some "public/a.webp" :=
  ⟨rfl, rfl, rfl, rfl⟩

theorem buildSrcsetEntries_of_empty (cfg : Config) (ex : String → Bool) (fmt : String) :
    buildSrcsetEntries cfg ex "" fmt = [] := rfl

/-- C5 (amended): the candidate srcset for a format is built only from the
original srcset's comma-separated entries — each stripped entry with exactly
two whitespace-separated fields (URL and descriptor) has the format's
extension substituted into its URL and is kept only when its resolved local
path exists — and the unscaled base name from the `<img>`'s `src` is never
added (the normalized `src` of lines 262-263 is computed but unused): an
`<img>` with an empty srcset yields no `<source>` elements no matter which
alternates of its `src` exist, and every surviving entry arises from an
original srcset pair with an existing resolved local path. -/
theorem c5_srcset_only_amended :
    (∀ (cfg : Config) (ex : String → Bool) (gal : Bool) (a : Attrs) (cs : List Node),
        srcsetOf a = "" → pyTruthy (srcOf a) = true →
        processImg cfg ex gal a cs
          = Node.elem "picture" [] [Node.elem "img" (setAttr a "loading" "lazy") cs]) ∧
    (∀ (cfg : Config) (ex : String → Bool) (oss fmt e : String),
        e ∈ buildSrcsetEntries cfg ex oss fmt →
        ∃ rawEntry origSrc width lp,
          rawEntry ∈ splitOnChar oss ',' ∧
          pySplitWs (strTrim rawEntry) = [origSrc, width] ∧
          e = subExt origSrc fmt ++ " " ++ width ∧
          url_to_local_path cfg (subExt origSrc fmt) = some lp ∧ ex lp = true) := by
  constructor
  · intro cfg ex gal a cs hss hsrc
    rw [processImg, if_pos hsrc]
    have hb : buildSources cfg ex a = [] := by
      rw [buildSources, hss]
      simp [img_formats, buildSrcsetEntries_of_empty]
    rw [hb, insertAtFront_eq_append, List.nil_append]
  · intro cfg ex oss fmt e he
    unfold buildSrcsetEntries at he
    rcases List.mem_filterMap.mp he with ⟨rawEntry, hraw, hsome⟩
    simp only at hsome
    by_cases h0 : strTrim rawEntry = ""
    · rw [if_pos h0] at hsome
      cases hsome
    · rw [if_neg h0] at hsome
      refine ⟨rawEntry, ?_⟩
      cases hsp : pySplitWs (strTrim rawEntry) with
      | nil => rw [hsp] at hsome; cases hsome
      | cons x xs =>
          cases xs with
          | nil => rw [hsp] at hsome; cases hsome
          | cons y ys =>
              cases ys with
              | nil =>
                  rw [hsp] at hsome
                  have hsome2 : (match url_to_local_path cfg (subExt x fmt) with
                      | some lp => if lp ≠ "" ∧ ex lp = true
                          then some (subExt x fmt ++ " " ++ y) else none
                      | none => none) = some e := hsome
                  cases hlp : url_to_local_path cfg (subExt x fmt) with
                  | none => rw [hlp] at hsome2; cases hsome2
                  | some lp =>
                      rw [hlp] at hsome2
                      have hsome3 : (if lp ≠ "" ∧ ex lp = true
                          then some (subExt x fmt ++ " " ++ y) else none)
                          = some e := hsome2
                      by_cases hc : lp ≠ "" ∧ ex lp = true
                      · rw [if_pos hc] at hsome3
                        exact ⟨x, y, lp, hraw, rfl,
                          (Option.some.inj hsome3).symm, hlp, hc.2⟩
                      · rw [if_neg hc] at hsome3
                        cases hsome3
              | cons z zs => rw [hsp] at hsome; cases hsome

/-- Witness for the amended C5: the srcset-less image from the counterexample
and one surviving entry of a real srcset. -/
theorem c5_srcset_only_amended_witness :
    processImg ⟨"http://example.com:2368", "https://dev.cadenkraft.com", "public"⟩
        (fun p => p == "public/a.webp") false [("src", "/a.jpg")] []
      = Node.elem "picture" []
          [Node.elem "img" (setAttr [("src", "/a.jpg")] "loading" "lazy") []] ∧
    (∃ rawEntry origSrc width lp,
        rawEntry ∈ splitOnChar "/a.jpg 800w" ',' ∧
        pySplitWs (strTrim rawEntry) = [origSrc, width] ∧
        "/a.webp 800w" = subExt origSrc "webp" ++ " " ++ width ∧
        url_to_local_path ⟨"http://example.com:2368", "https://dev.cadenkraft.com",
          "public"⟩ (subExt origSrc "webp") = some lp ∧
        (fun p => p == "public/a.webp") lp = true) :=
  ⟨c5_srcset_only_amended.1 ⟨"http://example.com:2368", "https://dev.cadenkraft.com",
      "public"⟩ (fun p => p == "public/a.webp") false [("src", "/a.jpg")] [] rfl
      (by decide),
   c5_srcset_only_amended.2 ⟨"http://example.com:2368", "https://dev.cadenkraft.com",
      "public"⟩ (fun p => p == "public/a.webp") "/a.jpg 800w" "webp" "/a.webp 800w"
      (by decide)⟩

/-! ## C9 — zero-image HTML files and the unconditional rewrite -/

theorem filter_isImg_nil (ns : List Node) (h : noImgForest ns = true) :
    ns.filter isImgNode = [] := by
  induction ns with
  | nil => rfl
  | cons n t ih =>
      rw [noImgForest, Bool.and_eq_true] at h
      rw [List.filter_cons]
      have hni : isImgNode n = false := by
        cases n with
        | text s => rfl
        | elem nm a cs =>
            have h1 := h.1
            rw [noImgNode, Bool.and_eq_true] at h1
            have hne := h1.1
            rw [isImgNode]
            simpa [bne] using hne
      rw [hni]
      simpa using ih h.2

mutual

theorem rewriteNode_id (cfg : Config) (ex : String → Bool) (g : Bool) (n : Node)
    (h : noImgNode n = true) : rewriteNode cfg ex g n = n := by
  cases n with
  | text s => rfl
  | elem nm a cs =>
      rw [noImgNode, Bool.and_eq_true] at h
      show (if nm == "picture" then processPicture cfg ex g a cs
          else Node.elem nm a (rewriteChildren cfg ex g (g || hasGalleryClass a) cs))
        = Node.elem nm a cs
      by_cases hp : (nm == "picture") = true
      · rw [if_pos hp]
        have hnm : nm = "picture" := by simpa using hp
        rw [processPicture, filter_isImg_nil cs h.2, List.length_nil, pictureLoop, hnm]
      · rw [if_neg hp, rewriteChildren_id cfg ex g (g || hasGalleryClass a) cs h.2]

theorem rewriteChildren_id (cfg : Config) (ex : String → Bool) (g1 g2 : Bool)
    (ns : List Node) (h : noImgForest ns = true) :
    rewriteChildren cfg ex g1 g2 ns = ns := by
  cases ns with
  | nil => rfl
  | cons n rest =>
      rw [noImgForest, Bool.and_eq_true] at h
      cases n with
      | text s =>
          show Node.text s :: rewriteChildren cfg ex g1 g2 rest = Node.text s :: rest
          rw [rewriteChildren_id cfg ex g1 g2 rest h.2]
      | elem nm a cs =>
          have h1 := h.1
          rw [noImgNode, Bool.and_eq_true] at h1
          have himg : (nm == "img") = false := by
            simpa [bne] using h1.1
          show (if nm == "img" then processImg cfg ex g1 a cs
              else rewriteNode cfg ex g2 (Node.elem nm a cs))
              :: rewriteChildren cfg ex g1 g2 rest
            = Node.elem nm a cs :: rest
          rw [himg]
          simp only [Bool.false_eq_true, if_false]
          rw [rewriteNode_id cfg ex g2 (Node.elem nm a cs) h.1,
            rewriteChildren_id cfg ex g1 g2 rest h.2]

end

/-- C9 counterexample: the fetched file `<br>` contains zero `<img>`
elements, yet after the rewrite stage its content is `<br/>` — the stage
unconditionally writes `str(soup)` back (lines 320-321), and BeautifulSoup's
serialization of the unchanged tree differs byte-wise from the fetched
bytes, so "byte-for-byte identical" is false. -/
theorem c9_reserialize_counterexample :
    noImgForest (parseHtml "<br>") = true ∧
    rewriteHtmlFile ⟨"http://example.com:2368", "https://dev.cadenkraft.com", "public"⟩
        (fun _ => false) "<br>" = "<br/>" ∧
    rewriteHtmlFile ⟨"http://example.com:2368", "https://dev.cadenkraft.com", "public"⟩
        (fun _ => false) "<br>" ≠ "<br>" :=
  ⟨by decide, by decide, by decide⟩

/-- C9 (amended): the rewrite stage never mutates the parse tree of an HTML
file with zero `<img>` elements, but it still rewrites the file
unconditionally: the saved bytes equal the re-serialization of the parsed
tree, which is byte-for-byte the fetched content only when parsing and
serialization round-trip it. -/
theorem c9_no_tree_mutation_amended :
    (∀ (cfg : Config) (ex : String → Bool) (g1 g2 : Bool) (ns : List Node),
        noImgForest ns = true → rewriteChildren cfg ex g1 g2 ns = ns) ∧
    (∀ (cfg : Config) (ex : String → Bool) (content : String),
        noImgForest (parseHtml content) = true →
        rewriteHtmlFile cfg ex content = serializeForest (parseHtml content)) := by
  constructor
  · exact fun cfg ex g1 g2 ns h => rewriteChildren_id cfg ex g1 g2 ns h
  · intro cfg ex content h
    rw [rewriteHtmlFile, rewriteChildren_id _ _ _ _ _ h]

/-- Witness for the amended C9 on a concrete image-free tree and file. -/
theorem c9_no_tree_mutation_amended_witness :
    rewriteChildren ⟨"http://example.com:2368", "https://dev.cadenkraft.com", "public"⟩
        (fun _ => false) false false
        [Node.elem "div" [("class", "x")] [Node.text "hi"]]
      = [Node.elem "div" [("class", "x")] [Node.text "hi"]] ∧
    rewriteHtmlFile ⟨"http://example.com:2368", "https://dev.cadenkraft.com", "public"⟩
        (fun _ => false) "<p>hi</p>"
      = serializeForest (parseHtml "<p>hi</p>") :=
  ⟨c9_no_tree_mutation_amended.1
      ⟨"http://example.com:2368", "https://dev.cadenkraft.com", "public"⟩
      (fun _ => false) false false
      [Node.elem "div" [("class", "x")] [Node.text "hi"]] (by decide),
   c9_no_tree_mutation_amended.2
      ⟨"http://example.com:2368", "https://dev.cadenkraft.com", "public"⟩
      (fun _ => false) "<p>hi</p>" (by decide)⟩

/-! ## C10 — the mirror path depends only on the URL path -/

theorem splitFirstCore_not_mem (sep : Char) (l : List Char) (h : sep ∉ l) :
    splitFirstCore sep l = (l, none) := by
  induction l with
  | nil => rfl
  | cons c cs ih =>
      rw [splitFirstCore]
      have hc : ¬ c = sep := fun hcc => h (hcc ▸ List.mem_cons_self c cs)
      rw [if_neg hc, ih (fun hm => h (List.mem_cons_of_mem c hm))]

theorem splitFirstCore_append (sep : Char) (p r : List Char) (h : sep ∉ p) :
    splitFirstCore sep (p ++ sep :: r) = (p, some r) := by
  induction p with
  | nil => rw [List.nil_append, splitFirstCore, if_pos rfl]
  | cons c cs ih =>
      rw [List.cons_append, splitFirstCore]
      have hc : ¬ c = sep := fun hcc => h (hcc ▸ List.mem_cons_self c cs)
      rw [if_neg hc, ih (fun hm => h (List.mem_cons_of_mem c hm))]

theorem exists_first_split (c : Char) (l : List Char) (h : c ∈ l) :
    ∃ p r, l = p ++ c :: r ∧ c ∉ p := by
  induction l with
  | nil => cases h
  | cons x xs ih =>
      by_cases hx : x = c
      · subst hx
        exact ⟨[], xs, rfl, by intro hm; cases hm⟩
      · have hxs : c ∈ xs := by
          rcases List.mem_cons.mp h with he | hm
          · exact absurd he.symm hx
          · exact hm
        rcases ih hxs with ⟨p, r, hl, hp⟩
        refine ⟨x :: p, r, by rw [hl, List.cons_append], ?_⟩
        intro hm
        rcases List.mem_cons.mp hm with he | hm2
        · exact hx he.symm
        · exact hp hm2

theorem takeWhile_append_all (p : Char → Bool) (l m : List Char)
    (h : ∀ x ∈ l, p x = true) :
    (l ++ m).takeWhile p = l ++ m.takeWhile p := by
  induction l with
  | nil => simp
  | cons c cs ih =>
      simp [List.takeWhile_cons, h c (List.mem_cons_self c cs),
        ih (fun x hx => h x (List.mem_cons_of_mem c hx))]

theorem dropWhile_append_all (p : Char → Bool) (l m : List Char)
    (h : ∀ x ∈ l, p x = true) :
    (l ++ m).dropWhile p = m.dropWhile p := by
  induction l with
  | nil => simp
  | cons c cs ih =>
      simp [List.dropWhile_cons, h c (List.mem_cons_self c cs),
        ih (fun x hx => h x (List.mem_cons_of_mem c hx))]

theorem all_or_first_break (p : Char → Bool) (l : List Char) :
    (∀ x ∈ l, p x = true) ∨
      ∃ g b t, l = g ++ b :: t ∧ (∀ x ∈ g, p x = true) ∧ p b = false := by
  induction l with
  | nil =>
      left
      intro x hx
      cases hx
  | cons c cs ih =>
      cases hc : p c with
      | false =>
          right
          exact ⟨[], c, cs, rfl, fun x hx => absurd hx (List.not_mem_nil x), hc⟩
      | true =>
          cases ih with
          | inl hall =>
              left
              intro x hx
              rcases List.mem_cons.mp hx with rfl | hx'
              · exact hc
              · exact hall x hx'
          | inr hbrk =>
              rcases hbrk with ⟨g, b, t, hl, hg, hb⟩
              right
              refine ⟨c :: g, b, t, by rw [hl, List.cons_append], ?_, hb⟩
              intro x hx
              rcases List.mem_cons.mp hx with rfl | hx'
              · exact hc
              · exact hg x hx'

theorem schemeSplit_append (B T : List Char) (h : ('?' : Char) ∉ B) :
    schemeSplitCore (B ++ '?' :: T)
      = ((schemeSplitCore B).1, (schemeSplitCore B).2 ++ '?' :: T) ∧
    ∃ pre, B = pre ++ (schemeSplitCore B).2 := by
  by_cases hc : (':' : Char) ∈ B
  · rcases exists_first_split ':' B hc with ⟨P, R, hB, hP⟩
    subst hB
    have e1 : splitFirstCore ':' (P ++ ':' :: R) = (P, some R) :=
      splitFirstCore_append ':' P R hP
    have e2 : splitFirstCore ':' ((P ++ ':' :: R) ++ '?' :: T)
        = (P, some (R ++ '?' :: T)) := by
      have hsh : (P ++ ':' :: R) ++ '?' :: T = P ++ ':' :: (R ++ '?' :: T) := by simp
      rw [hsh]
      exact splitFirstCore_append ':' P (R ++ '?' :: T) hP
    constructor
    · rw [schemeSplitCore, schemeSplitCore, e1, e2]
      by_cases hv : isValidSchemeChars P = true <;> simp [hv]
    · by_cases hv : isValidSchemeChars P = true
      · refine ⟨P ++ [':'], ?_⟩
        rw [schemeSplitCore, e1]
        simp [hv]
      · refine ⟨[], ?_⟩
        rw [schemeSplitCore, e1]
        simp [hv]
  · have e1 : splitFirstCore ':' B = (B, none) := splitFirstCore_not_mem ':' B hc
    have hsuf : ∃ pre, B = pre ++ (schemeSplitCore B).2 := by
      refine ⟨[], ?_⟩
      rw [schemeSplitCore, e1]
      rfl
    by_cases hcT : (':' : Char) ∈ T
    · rcases exists_first_split ':' T hcT with ⟨T1, T2, hT, hT1⟩
      subst hT
      have e2 : splitFirstCore ':' (B ++ '?' :: (T1 ++ ':' :: T2))
          = (B ++ '?' :: T1, some T2) := by
        have hsh : B ++ '?' :: (T1 ++ ':' :: T2) = (B ++ '?' :: T1) ++ ':' :: T2 := by
          simp
        rw [hsh]
        apply splitFirstCore_append
        intro hm
        rcases List.mem_append.mp hm with hm1 | hm2
        · exact hc hm1
        · rcases List.mem_cons.mp hm2 with he | hm3
          · exact absurd he (by decide)
          · exact hT1 hm3
      refine ⟨?_, hsuf⟩
      have hv : isValidSchemeChars (B ++ '?' :: T1) = false := by
        cases B with
        | nil =>
            rw [List.nil_append, isValidSchemeChars]
            have ha : ('?' : Char).isAlpha = false := by decide
            rw [ha, Bool.false_and]
        | cons b0 B' =>
            rw [List.cons_append, isValidSchemeChars]
            have ha : ((b0 :: (B' ++ '?' :: T1)).all isSchemeChar) = false := by
              rw [List.all_eq_false]
              refine ⟨'?', ?_, by decide⟩
              exact List.mem_cons_of_mem b0
                (List.mem_append_right B' (List.mem_cons_self '?' T1))
            rw [ha, Bool.and_false]
      rw [schemeSplitCore, schemeSplitCore, e1, e2]
      simp [hv]
    · have e2 : splitFirstCore ':' (B ++ '?' :: T) = (B ++ '?' :: T, none) := by
        apply splitFirstCore_not_mem
        intro hm
        rcases List.mem_append.mp hm with hm1 | hm2
        · exact hc hm1
        · rcases List.mem_cons.mp hm2 with he | hm3
          · exact absurd he (by decide)
          · exact hcT hm3
      refine ⟨?_, hsuf⟩
      rw [schemeSplitCore, schemeSplitCore, e1, e2]

theorem netlocSplit_append (R T : List Char) :
    netlocSplitCore (R ++ '?' :: T)
      = ((netlocSplitCore R).1, (netlocSplitCore R).2 ++ '?' :: T) ∧
    ∃ pre, R = pre ++ (netlocSplitCore R).2 := by
  cases R with
  | nil =>
      refine ⟨?_, [], rfl⟩
      cases T with
      | nil => rfl
      | cons c2 T2 =>
          rw [List.nil_append, netlocSplitCore,
            if_neg (fun hh => absurd hh.1 (by decide))]
          rfl
  | cons c1 R1 =>
      cases R1 with
      | nil =>
          refine ⟨?_, [], rfl⟩
          rw [List.cons_append, List.nil_append, netlocSplitCore,
            if_neg (fun hh => absurd hh.2 (by decide))]
          rfl
      | cons c2 R2 =>
          by_cases hcc : c1 = '/' ∧ c2 = '/'
          · obtain ⟨hh1, hh2⟩ := hcc
            subst hh1
            subst hh2
            rw [show ('/' :: '/' :: R2) ++ '?' :: T = '/' :: '/' :: (R2 ++ '?' :: T)
                from rfl,
              netlocSplitCore, netlocSplitCore, if_pos ⟨rfl, rfl⟩, if_pos ⟨rfl, rfl⟩]
            rcases all_or_first_break (fun c => !isNetlocEnd c) R2 with hall | hbrk
            · have ht2 : R2.takeWhile (fun c => !isNetlocEnd c) = R2 := by
                have h5 := takeWhile_append_all (fun c => !isNetlocEnd c) R2 [] hall
                simpa using h5
              have hd2 : R2.dropWhile (fun c => !isNetlocEnd c) = [] := by
                have h5 := dropWhile_append_all (fun c => !isNetlocEnd c) R2 [] hall
                simpa using h5
              have hq2 : isNetlocEnd '?' = true := by decide
              constructor
              · rw [takeWhile_append_all _ R2 ('?' :: T) hall,
                  dropWhile_append_all _ R2 ('?' :: T) hall, ht2, hd2]
                simp [List.takeWhile_cons, List.dropWhile_cons, hq2]
              · refine ⟨'/' :: '/' :: R2, ?_⟩
                rw [hd2]
                simp
            · rcases hbrk with ⟨g, b, t, hR2, hg, hb⟩
              subst hR2
              have hb9 : (!isNetlocEnd b) = false := by simpa using hb
              constructor
              · rw [show (g ++ b :: t) ++ '?' :: T = g ++ b :: (t ++ '?' :: T) by simp,
                  takeWhile_append_all _ g (b :: (t ++ '?' :: T)) hg,
                  dropWhile_append_all _ g (b :: (t ++ '?' :: T)) hg,
                  takeWhile_append_all _ g (b :: t) hg,
                  dropWhile_append_all _ g (b :: t) hg]
                simp [List.takeWhile_cons, List.dropWhile_cons, hb9]
              · refine ⟨'/' :: '/' :: g, ?_⟩
                rw [dropWhile_append_all _ g (b :: t) hg]
                simp [List.dropWhile_cons, hb9]
          · constructor
            · rw [show (c1 :: c2 :: R2) ++ '?' :: T = c1 :: c2 :: (R2 ++ '?' :: T)
                  from rfl,
                netlocSplitCore, netlocSplitCore, if_neg hcc, if_neg hcc]
              rfl
            · refine ⟨[], ?_⟩
              rw [netlocSplitCore, if_neg hcc]
              rfl

theorem urlparse_path_core (u : String) :
    (urlparse u).path = String.mk
      (splitFirstCore '?' (splitFirstCore '#'
        (netlocSplitCore (schemeSplitCore u.toList).2).2).1).1 := rfl

theorem urlparse_path_append (base q f : String)
    (h1 : ('?' : Char) ∉ base.toList) (h2 : ('#' : Char) ∉ base.toList)
    (h3 : ('#' : Char) ∉ q.toList) :
    (urlparse (base ++ "?" ++ q ++ "#" ++ f)).path = (urlparse base).path := by
  have he : ∀ s t : String, (s ++ t).toList = s.toList ++ t.toList := fun s t =>
    String.data_append s t
  have hdata : (base ++ "?" ++ q ++ "#" ++ f).toList
      = base.toList ++ '?' :: (q.toList ++ '#' :: f.toList) := by
    rw [he, he, he, he]
    show base.toList ++ ['?'] ++ q.toList ++ ['#'] ++ f.toList = _
    simp
  obtain ⟨hsch, pre1, hpre1⟩ :=
    schemeSplit_append base.toList (q.toList ++ '#' :: f.toList) h1
  have h1r1 : ('?' : Char) ∉ (schemeSplitCore base.toList).2 := fun hm =>
    h1 (by rw [hpre1]; exact List.mem_append_right pre1 hm)
  have h2r1 : ('#' : Char) ∉ (schemeSplitCore base.toList).2 := fun hm =>
    h2 (by rw [hpre1]; exact List.mem_append_right pre1 hm)
  obtain ⟨hnet, pre2, hpre2⟩ := netlocSplit_append (schemeSplitCore base.toList).2
      (q.toList ++ '#' :: f.toList)
  have h1r2 : ('?' : Char) ∉ (netlocSplitCore (schemeSplitCore base.toList).2).2 :=
    fun hm => h1r1 (by rw [hpre2]; exact List.mem_append_right pre2 hm)
  have h2r2 : ('#' : Char) ∉ (netlocSplitCore (schemeSplitCore base.toList).2).2 :=
    fun hm => h2r1 (by rw [hpre2]; exact List.mem_append_right pre2 hm)
  have efragA : splitFirstCore '#'
        ((netlocSplitCore (schemeSplitCore base.toList).2).2
          ++ '?' :: (q.toList ++ '#' :: f.toList))
      = ((netlocSplitCore (schemeSplitCore base.toList).2).2 ++ '?' :: q.toList,
          some f.toList) := by
    rw [show (netlocSplitCore (schemeSplitCore base.toList).2).2
          ++ '?' :: (q.toList ++ '#' :: f.toList)
        = ((netlocSplitCore (schemeSplitCore base.toList).2).2 ++ '?' :: q.toList)
          ++ '#' :: f.toList by simp]
    apply splitFirstCore_append
    intro hm
    rcases List.mem_append.mp hm with hma | hmb
    · exact h2r2 hma
    · rcases List.mem_cons.mp hmb with he2 | hmc
      · exact absurd he2 (by decide)
      · exact h3 hmc
  have equeryA : splitFirstCore '?'
        ((netlocSplitCore (schemeSplitCore base.toList).2).2 ++ '?' :: q.toList)
      = ((netlocSplitCore (schemeSplitCore base.toList).2).2, some q.toList) :=
    splitFirstCore_append '?' _ q.toList h1r2
  have efragB : splitFirstCore '#' (netlocSplitCore (schemeSplitCore base.toList).2).2
      = ((netlocSplitCore (schemeSplitCore base.toList).2).2, none) :=
    splitFirstCore_not_mem '#' _ h2r2
  have equeryB : splitFirstCore '?' (netlocSplitCore (schemeSplitCore base.toList).2).2
      = ((netlocSplitCore (schemeSplitCore base.toList).2).2, none) :=
    splitFirstCore_not_mem '?' _ h1r2
  simp only [urlparse_path_core, hdata, hsch, hnet, efragA, equeryA, efragB, equeryB]

theorem readStore_writeStore_same (st : Store) (p c : String) :
    readStore (writeStore st p c) p = some c := by
  induction st with
  | nil => simp [writeStore, readStore]
  | cons kv t ih =>
      rcases kv with ⟨qq, dd⟩
      by_cases h : qq = p
      · simp [writeStore, readStore, h]
      · simp [writeStore, readStore, h, ih]

/-- C10: the mirror path written for a fetched URL depends only on the URL's
path component — two URLs with equal parsed paths get the same mirror path,
and in particular appending any query and fragment to a URL leaves its mirror
path unchanged — so when two such URLs are fetched in turn, the second
saved content overwrites the first at the shared path. -/
theorem c10_path_only (pub : String) :
    (∀ u₁ u₂ : String, (urlparse u₁).path = (urlparse u₂).path →
        save_file_path pub u₁ = save_file_path pub u₂) ∧
    (∀ base q f : String, ('?' : Char) ∉ base.toList → ('#' : Char) ∉ base.toList →
        ('#' : Char) ∉ q.toList →
        save_file_path pub (base ++ "?" ++ q ++ "#" ++ f) = save_file_path pub base) ∧
    (∀ (st : Store) (u₁ u₂ c₁ c₂ : String),
        save_file_path pub u₁ = save_file_path pub u₂ →
        readStore (save_file pub (save_file pub st u₁ c₁) u₂ c₂) (save_file_path pub u₁)
          = some c₂) := by
  have hpathdep : ∀ u₁ u₂ : String, (urlparse u₁).path = (urlparse u₂).path →
      save_file_path pub u₁ = save_file_path pub u₂ := by
    intro u₁ u₂ h
    unfold save_file_path save_file_relpath
    rw [h]
  refine ⟨hpathdep, ?_, ?_⟩
  · intro base q f h1 h2 h3
    exact hpathdep _ _ (urlparse_path_append base q f h1 h2 h3)
  · intro st u₁ u₂ c₁ c₂ h
    unfold save_file
    rw [h]
    exact readStore_writeStore_same _ _ _

/-- Witness for C10 at concrete URLs differing only in query/fragment. -/
theorem c10_path_only_witness :
    save_file_path "public" "https://h/x.css?a=1"
      = save_file_path "public" "https://h/x.css#frag" ∧
    save_file_path "public" ("https://h/a.css" ++ "?" ++ "v=1" ++ "#" ++ "top")
      = save_file_path "public" "https://h/a.css" ∧
    readStore (save_file "public" (save_file "public" [] "https://h/s.css?v=1" "OLD")
        "https://h/s.css#f" "NEW") (save_file_path "public" "https://h/s.css?v=1")
      = some "NEW" :=
  ⟨(c10_path_only "public").1 "https://h/x.css?a=1" "https://h/x.css#frag" (by decide),
   (c10_path_only "public").2.1 "https://h/a.css" "v=1" "top" (by decide) (by decide)
     (by decide),
   (c10_path_only "public").2.2 [] "https://h/s.css?v=1" "https://h/s.css#f" "OLD" "NEW"
     (by decide)⟩
